import Mathlib

/-!
Shallow embedding of `ignite/pkg/cosmosmetric/adapter/postgres/postgres.go`.

The adapter talks to an external PostgreSQL database through Go's
`database/sql` package.  The embedding models:

* the database contents visible to this adapter as a `DBState` record
  (the `schema` version table, the `tx` table and the `attribute` table);
* fallible external operations (`BeginTx`, `PrepareContext`, `ExecContext`,
  `Commit`, the embedded-file reads and `cosmosclient.UnmarshallEvents`)
  through explicit outcome oracles, so that every failure path of the Go
  code is reachable in the model;
* `database/sql` transaction semantics: statements executed inside an open
  transaction are buffered as pending operations and reach the `DBState`
  only on `Commit`; the deferred `Rollback` discards them on every early
  return;
* Go errors as their message strings, with `fmt.Errorf("...: %w", err)`
  wrapping modelled as string concatenation.
-/

set_option autoImplicit false

namespace Postgres

/-- Go errors are modelled by their message strings. -/
abbrev Error := String

/-- `adapterType` constant from the source. -/
def adapterType : String := "postgres"

/-- `defaultPort` constant from the source. -/
def defaultPort : Nat := 5432

/-- `defaultHost` constant from the source. -/
def defaultHost : String := "127.0.0.1"

/-- `schemaVersion`: latest schema version that the adapter should apply. -/
def schemaVersion : Nat := 1

/-- `ErrClosed` is returned when the database connection is not open. -/
def ErrClosed : Error := "no database connection"

/-!  ## JSON values and `encoding/json.Marshal`

An event attribute value in Go is an arbitrary decoded value
(`interface`-typed).  The model restricts it to scalar JSON shapes plus an
`unsupported` constructor standing for any Go value that `json.Marshal`
rejects (channels, functions, cyclic data, ...), which is exactly the
distinction the adapter's code can observe. -/

inductive Json where
  | null
  | bool (b : Bool)
  | num (n : Int)
  | str (s : String)
  | unsupported (msg : String)
  deriving DecidableEq, Repr

/-- Lower-case hexadecimal digit, used by `json.Marshal` for `\u00xx` escapes. -/
def hexLower (n : Nat) : Char :=
  ("0123456789abcdef".data).getD n '0'

/-- Escaping of one character inside a JSON string literal, following
`encoding/json` (quotes, backslash, HTML-sensitive characters and control
characters are escaped). -/
def jsonEscapeChar (c : Char) : List Char :=
  if c = '"' then ['\\', '"']
  else if c = '\\' then ['\\', '\\']
  else if c = '<' then "\\u003c".data
  else if c = '>' then "\\u003e".data
  else if c = '&' then "\\u0026".data
  else if c = '\n' then ['\\', 'n']
  else if c = '\r' then ['\\', 'r']
  else if c = '\t' then ['\\', 't']
  else if c.toNat < 32 then
    '\\' :: 'u' :: '0' :: '0' :: [hexLower (c.toNat / 16), hexLower (c.toNat % 16)]
  else [c]

/-- `encoding/json.Marshal` on the modelled value shapes.  Scalar values are
serialized; an `unsupported` value makes `Marshal` fail, as it does in Go. -/
def jsonMarshal : Json → Except Error String
  | .null => .ok "null"
  | .bool true => .ok "true"
  | .bool false => .ok "false"
  | .num n => .ok (toString n)
  | .str s => .ok ("\"" ++ String.mk (s.data.foldr (fun c acc => jsonEscapeChar c ++ acc) []) ++ "\"")
  | .unsupported msg => .error ("json: unsupported type: " ++ msg)

/-!  ## Input data: transactions, events, attributes -/

/-- One event attribute (`Key`/`Value` pair) as produced by the decoder. -/
structure Attribute where
  key : String
  value : Json
  deriving DecidableEq, Repr

/-- One decoded event: its type and its attributes, in order. -/
structure Event where
  type : String
  attributes : List Attribute
  deriving DecidableEq, Repr

/-- One `cosmosclient.TX` as seen by `Save`: the fields the adapter reads
(`tx.Raw.Hash.String()`, `tx.Raw.Index`, `tx.Raw.Height`, `tx.BlockTime`)
together with the outcome of the external call
`cosmosclient.UnmarshallEvents(tx)` on it. -/
structure TX where
  hash : String
  index : Nat
  height : Int
  blockTime : String
  unmarshalledEvents : Except Error (List Event)
  deriving Repr

/-!  ## Database contents -/

/-- A row of the `tx` table (`INSERT INTO tx (hash, index, height, block_time)`). -/
structure TxRow where
  hash : String
  index : Nat
  height : Int
  blockTime : String
  deriving DecidableEq, Repr

/-- A row of the `attribute` table
(`INSERT INTO attribute (tx_hash, event_type, event_index, name, value)`). -/
structure AttrRow where
  txHash : String
  eventType : String
  eventIndex : Nat
  name : String
  value : String
  deriving DecidableEq, Repr

/-- Database contents visible to the adapter's queries: whether the
`schema` table exists in the `public` schema, the versions recorded in it,
and the `tx` and `attribute` tables. -/
structure DBState where
  schemaTableExists : Bool
  schemaRows : List Nat
  txRows : List TxRow
  attrRows : List AttrRow
  deriving DecidableEq, Repr

/-- The adapter record, mirroring the Go `Adapter` struct.  The `db` handle
(`*sql.DB`) is `nil` or open; the model only tracks whether it is set,
since the database contents are passed explicitly to each operation. -/
structure Adapter where
  host : String := defaultHost
  user : String := ""
  password : String := ""
  database : String := ""
  port : Nat := defaultPort
  params : Option (List (String × String)) := none
  db : Bool := false
  deriving Repr

/-- `Adapter.GetType`. -/
def GetType (_ : Adapter) : String := adapterType

/-- `Adapter.getDB`: returns the handle, or `ErrClosed` when `a.db == nil`. -/
def getDB (a : Adapter) : Except Error Unit :=
  if a.db = false then .error ErrClosed else .ok ()

/-- `MAX(version)` aggregate over the `schema` table: `none` models the SQL
`NULL` produced by an aggregate over zero rows. -/
def maxVersion : List Nat → Option Nat
  | [] => none
  | v :: vs =>
    match maxVersion vs with
    | none => some v
    | some m => some (max v m)

/-- `MAX(height)` aggregate over the `tx` table. -/
def maxHeight : List TxRow → Option Int
  | [] => none
  | r :: rs =>
    match maxHeight rs with
    | none => some r.height
    | some m => some (max r.height m)

/-- `Adapter.getSchemaVersion`: `getDB`, then the `querySchemaExists`
existence check, then `SELECT MAX(version) FROM schema`.  Scanning the
`NULL` that `MAX` yields on an empty table into a Go `uint` fails. -/
def getSchemaVersion (a : Adapter) (st : DBState) : Except Error Nat :=
  match getDB a with
  | .error e => .error e
  | .ok _ =>
    if st.schemaTableExists = false then .ok 0
    else
      match maxVersion st.schemaRows with
      | none => .error "sql: Scan error on column index 0: converting NULL to uint is unsupported"
      | some v => .ok v

/-- `Adapter.GetLatestHeight`: `getDB`, then `SELECT MAX(height) FROM tx`
scanned into an `int64`.  On an empty `tx` table the aggregate yields SQL
`NULL`, which cannot be scanned into `int64`, so the call errors with the
zero value for the height. -/
def GetLatestHeight (a : Adapter) (st : DBState) : Int × Option Error :=
  match getDB a with
  | .error e => (0, some e)
  | .ok _ =>
    match maxHeight st.txRows with
    | none => (0, some "sql: Scan error on column index 0: converting NULL to int64 is unsupported")
    | some h => (h, none)

/-!  ## Schema setup -/

/-- External environment of `SetupSchema`: the embedded `schemas/*` files
(`fsSchemas.ReadFile` outcome per path) and the outcome of
`db.ExecContext` on a given script. -/
structure SchemaEnv where
  fsSchemas : String → Except Error String
  execErr : String → Option Error

/-- `Adapter.applySchema`: read `schemas/<filename>` from the embedded FS,
get the handle, execute the script.  Returns the error of the first failing
step, `none` on success. -/
def applySchema (a : Adapter) (env : SchemaEnv) (filename : String) : Option Error :=
  match env.fsSchemas ("schemas/" ++ filename) with
  | .error e => some e
  | .ok script =>
    match getDB a with
    | .error e => some e
    | .ok _ => env.execErr script

/-- Key of a migration version, `fmt.Sprintf("%d.sql", i)`. -/
def verKey (i : Nat) : String := toString i ++ ".sql"

/-- The `for i := current + 1; i <= schemaVersion; i++` loop of
`SetupSchema`, unrolled on the number `n` of remaining versions starting at
`i`.  Returns the keys of the scripts applied successfully (in application
order) and the error that stopped the loop, if any; scripts already applied
are not undone by a later failure. -/
def applyVersions (a : Adapter) (env : SchemaEnv) : Nat → Nat → List String × Option Error
  | _, 0 => ([], none)
  | i, Nat.succ n =>
    let name := verKey i
    match applySchema a env name with
    | some e => ([], some ("error applying schema " ++ name ++ ": " ++ e))
    | none =>
      let r := applyVersions a env (i + 1) n
      (name :: r.1, r.2)

/-- `Adapter.SetupSchema` with the target version abstracted: read the
current version, no-op when equal to the target, refuse when newer, else
apply every version in `(current, target]` in ascending order.  The first
component lists the scripts executed on the database in this call. -/
def setupSchemaTo (a : Adapter) (env : SchemaEnv) (st : DBState) (target : Nat) :
    List String × Option Error :=
  match getSchemaVersion a st with
  | .error e => ([], some ("failed to read schema version: " ++ e))
  | .ok current =>
    if current = target then ([], none)
    else if current > target then
      ([], some ("latest schema version is v" ++ toString target ++ ", found v" ++ toString current))
    else applyVersions a env (current + 1) (target - current)

/-- `Adapter.SetupSchema`: `setupSchemaTo` at the compiled-in target
`schemaVersion`. -/
def SetupSchema (a : Adapter) (env : SchemaEnv) (st : DBState) : List String × Option Error :=
  setupSchemaTo a env st schemaVersion

/-!  ## Save -/

/-- A statement executed inside the open database transaction of `Save`. -/
inductive Op where
  | insertTx (row : TxRow)
  | insertAttr (row : AttrRow)
  deriving DecidableEq, Repr

/-- Committing one buffered statement into the database contents. -/
def applyOp (st : DBState) : Op → DBState
  | .insertTx r => { st with txRows := st.txRows ++ [r] }
  | .insertAttr r => { st with attrRows := st.attrRows ++ [r] }

/-- Committing a buffer of statements, in execution order. -/
def applyOps (st : DBState) (ops : List Op) : DBState :=
  ops.foldl applyOp st

/-- Outcomes of the external `database/sql` calls made by `Save`:
`BeginTx`, the two `PrepareContext` calls, each `ExecContext` on the two
prepared statements (as a function of the row being inserted), and
`Commit`. -/
structure SaveOracle where
  beginTxErr : Option Error
  prepareTxErr : Option Error
  prepareAttrErr : Option Error
  insertTxErr : TxRow → Option Error
  insertAttrErr : AttrRow → Option Error
  commitErr : Option Error

/-- Inner attribute loop of `Save` (`for _, attr := range evt.Attributes`):
JSON-encode the value, then execute the prepared attribute insert.  `i` is
the position of the event inside the transaction's event list. -/
def saveAttrs (o : SaveOracle) (hash : String) (evtType : String) (i : Nat) :
    List Attribute → List Op → Except Error (List Op)
  | [], pending => .ok pending
  | attr :: rest, pending =>
    match jsonMarshal attr.value with
    | .error e => .error ("failed to encode event attribute '" ++ attr.key ++ "': " ++ e)
    | .ok v =>
      let row : AttrRow := ⟨hash, evtType, i, attr.key, v⟩
      match o.insertAttrErr row with
      | some e => .error ("error saving event attribute: " ++ e)
      | none => saveAttrs o hash evtType i rest (pending ++ [Op.insertAttr row])

/-- Event loop of `Save` (`for i, evt := range events`). -/
def saveEvents (o : SaveOracle) (hash : String) :
    List Event → Nat → List Op → Except Error (List Op)
  | [], _, pending => .ok pending
  | evt :: rest, i, pending =>
    match saveAttrs o hash evt.type i evt.attributes pending with
    | .error e => .error e
    | .ok pending2 => saveEvents o hash rest (i + 1) pending2

/-- Transaction loop of `Save` (`for _, tx := range txs`): insert the
transaction row, decode its events, insert the event attributes. -/
def saveTxs (o : SaveOracle) : List TX → List Op → Except Error (List Op)
  | [], pending => .ok pending
  | tx :: rest, pending =>
    let hash := tx.hash
    let row : TxRow := ⟨hash, tx.index, tx.height, tx.blockTime⟩
    match o.insertTxErr row with
    | some e => .error ("error saving transaction " ++ hash ++ ": " ++ e)
    | none =>
      match tx.unmarshalledEvents with
      | .error e => .error e
      | .ok events =>
        match saveEvents o hash events 0 (pending ++ [Op.insertTx row]) with
        | .error e => .error e
        | .ok pending2 => saveTxs o rest pending2

/-- Result of a `Save` call: the database contents after the call, the
returned error, and whether a database transaction was successfully begun
and whether it was committed. -/
structure SaveResult where
  state : DBState
  err : Option Error
  began : Bool
  committed : Bool
  deriving DecidableEq, Repr

/-- `Adapter.Save`: `getDB`, `BeginTx` with a deferred `Rollback`, prepare
the two insert statements, run the transaction loop, `Commit`.  Every early
return leaves the open transaction to the deferred `Rollback`, so the
database contents are unchanged; only a successful `Commit` publishes the
buffered inserts. -/
def Save (a : Adapter) (o : SaveOracle) (st : DBState) (txs : List TX) : SaveResult :=
  match getDB a with
  | .error e => ⟨st, some e, false, false⟩
  | .ok _ =>
    match o.beginTxErr with
    | some e => ⟨st, some e, false, false⟩
    | none =>
      match o.prepareTxErr with
      | some e => ⟨st, some e, true, false⟩
      | none =>
        match o.prepareAttrErr with
        | some e => ⟨st, some e, true, false⟩
        | none =>
          match saveTxs o txs [] with
          | .error e => ⟨st, some e, true, false⟩
          | .ok pending =>
            match o.commitErr with
            | some e => ⟨st, some e, true, false⟩
            | none => ⟨applyOps st pending, none, true, true⟩

/-!  ## `net/url` model for `createPostgresURI`

`createPostgresURI` builds a `url.URL` value and renders it with
`URL.String()`.  The model reproduces the parts of Go's `net/url` that this
construction exercises (percent-escaping per encoding mode, userinfo
rendering, `Values.Encode`), treating characters as bytes, which coincides
with Go's byte-wise escaping on ASCII configuration strings. -/

/-- The escaping modes of `net/url`. -/
inductive UrlEncoding where
  | path
  | pathSegment
  | host
  | zone
  | userPassword
  | queryComponent
  | fragment
  deriving DecidableEq, Repr

/-- `net/url.shouldEscape`: whether byte `c` must be percent-escaped in the
given mode. -/
def shouldEscape (c : Char) (mode : UrlEncoding) : Bool :=
  if ('a' ≤ c ∧ c ≤ 'z') ∨ ('A' ≤ c ∧ c ≤ 'Z') ∨ ('0' ≤ c ∧ c ≤ '9') then false
  else if (mode = .host ∨ mode = .zone) ∧
      c ∈ ['!', '$', '&', '\'', '(', ')', '*', '+', ',', ';', '=', ':', '[', ']', '<', '>', '"'] then
    false
  else if c ∈ ['-', '_', '.', '~'] then false
  else if c ∈ ['$', '&', '+', ',', '/', ':', ';', '=', '?', '@'] then
    match mode with
    | .path => c = '?'
    | .pathSegment => c = '/' ∨ c = ';' ∨ c = ',' ∨ c = '?'
    | .userPassword => c = '@' ∨ c = '/' ∨ c = '?' ∨ c = ':'
    | .queryComponent => true
    | .fragment => false
    | .host => true
    | .zone => true
  else if mode = .fragment ∧ c ∈ ['!', '(', ')', '*'] then false
  else true

/-- Upper-case hexadecimal digit, used by `net/url` percent-escapes. -/
def hexUpper (n : Nat) : Char :=
  ("0123456789ABCDEF".data).getD n '0'

/-- One byte of `net/url.escape`: space becomes `+` in query components,
other escaped bytes become `%XX`. -/
def escapeChar (mode : UrlEncoding) (c : Char) : List Char :=
  if shouldEscape c mode then
    if c = ' ' ∧ mode = .queryComponent then ['+']
    else ['%', hexUpper (c.toNat / 16), hexUpper (c.toNat % 16)]
  else [c]

/-- `net/url.escape`. -/
def escape (s : String) (mode : UrlEncoding) : String :=
  String.mk (s.data.foldr (fun c acc => escapeChar mode c ++ acc) [])

/-- `net/url.QueryEscape`. -/
def queryEscape (s : String) : String := escape s .queryComponent

/-- `net/url.Userinfo`. -/
structure Userinfo where
  username : String
  password : String
  passwordSet : Bool
  deriving DecidableEq, Repr

/-- `url.User(username)`: a userinfo with no password set. -/
def urlUser (username : String) : Userinfo := ⟨username, "", false⟩

/-- `url.UserPassword(username, password)`. -/
def urlUserPassword (username password : String) : Userinfo :=
  ⟨username, password, true⟩

/-- `Userinfo.String()`. -/
def Userinfo.toStr (u : Userinfo) : String :=
  escape u.username .userPassword ++
    (if u.passwordSet then ":" ++ escape u.password .userPassword else "")

/-- The fields of `url.URL` that `createPostgresURI` sets; the remaining
fields (`Opaque`, `RawPath`, `ForceQuery`, `Fragment`, ...) stay at their
zero values for every URL this adapter builds. -/
structure URL where
  scheme : String := ""
  user : Option Userinfo := none
  host : String := ""
  path : String := ""
  rawQuery : String := ""
  deriving DecidableEq, Repr

/-- `url.URL.String()` specialized to zero `Opaque`, `RawPath`,
`ForceQuery`, `RawFragment` and `OmitHost` fields, following the Go code
branch by branch. -/
def URL.toStr (u : URL) : String :=
  let buf0 := if u.scheme ≠ "" then u.scheme ++ ":" else ""
  let auth :=
    if u.scheme ≠ "" ∨ u.host ≠ "" ∨ u.user ≠ none then
      (if u.host ≠ "" ∨ u.path ≠ "" ∨ u.user ≠ none then "//" else "") ++
      (match u.user with
       | some ui => ui.toStr ++ "@"
       | none => "") ++
      (if u.host ≠ "" then escape u.host .host else "")
    else ""
  let path := escape u.path .path
  let slash := if path ≠ "" ∧ path.take 1 ≠ "/" ∧ u.host ≠ "" then "/" else ""
  let pre := buf0 ++ auth ++ slash
  let dotSlash :=
    if pre = "" ∧ (path.takeWhile (fun c => c != '/')).data.contains ':' then "./" else ""
  pre ++ dotSlash ++ path ++ (if u.rawQuery ≠ "" then "?" ++ u.rawQuery else "")

/-- `url.Values.Set` on an association-list view of the Go map: replace the
value recorded for `k`, or record a new key. -/
def valuesSet (k v : String) : List (String × String) → List (String × String)
  | [] => [(k, v)]
  | (k2, v2) :: rest =>
    if k2 = k then (k, v) :: rest else (k2, v2) :: valuesSet k v rest

/-- The `for k, v := range a.params { query.Set(k, v) }` loop. -/
def buildValues (params : List (String × String)) : List (String × String) :=
  params.foldl (fun q kv => valuesSet kv.1 kv.2 q) []

/-- Lexicographic byte order on strings, as used by `sort.Strings` in
`url.Values.Encode`. -/
def charListLe : List Char → List Char → Bool
  | [], _ => true
  | _ :: _, [] => false
  | a :: as, b :: bs => if a = b then charListLe as bs else decide (a < b)

/-- `strLe s t` holds when `s` sorts at or before `t`. -/
def strLe (s t : String) : Bool := charListLe s.data t.data

/-- Insertion into a key-sorted association list. -/
def insertPairSorted (p : String × String) :
    List (String × String) → List (String × String)
  | [] => [p]
  | q :: qs => if strLe p.1 q.1 then p :: q :: qs else q :: insertPairSorted p qs

/-- Sorting an association list by key (the `sort.Strings(keys)` step of
`url.Values.Encode`). -/
def sortByKey : List (String × String) → List (String × String)
  | [] => []
  | p :: ps => insertPairSorted p (sortByKey ps)

/-- One `key=value` segment of an encoded query. -/
def encodePair (p : String × String) : String :=
  queryEscape p.1 ++ "=" ++ queryEscape p.2

/-- The buffer loop of `url.Values.Encode`: write the segments separated
by `&` (a separator is written before every segment except the first). -/
def joinAmp : List String → String
  | [] => ""
  | [s] => s
  | s :: rest => s ++ "&" ++ joinAmp rest

/-- `url.Values.Encode()`: escape each pair, keys in sorted order, joined
by `&`. -/
def valuesEncode (vals : List (String × String)) : String :=
  joinAmp ((sortByKey vals).map encodePair)

/-- `createPostgresURI`: build the `url.URL` (scheme, `host:port`, path
from the `database` field), add userinfo depending on user/password, add
the extra params as the encoded query, and render it. -/
def createPostgresURI (a : Adapter) : String :=
  let uri : URL :=
    { scheme := adapterType
      host := a.host ++ ":" ++ toString a.port
      path := a.database }
  let uri :=
    if a.user ≠ "" then
      if a.password ≠ "" then { uri with user := some (urlUserPassword a.user a.password) }
      else { uri with user := some (urlUser a.user) }
    else uri
  let uri :=
    match a.params with
    | some ps => { uri with rawQuery := valuesEncode (buildValues ps) }
    | none => uri
  uri.toStr

/-- An `Option` of the Go source: a function updating the adapter record. -/
abbrev AdapterOption := Adapter → Adapter

/-- `WithHost`. -/
def WithHost (host : String) : AdapterOption := fun a => { a with host := host }

/-- `WithPort`. -/
def WithPort (port : Nat) : AdapterOption := fun a => { a with port := port }

/-- `WithUser`. -/
def WithUser (user : String) : AdapterOption := fun a => { a with user := user }

/-- `WithPassword`. -/
def WithPassword (password : String) : AdapterOption := fun a => { a with password := password }

/-- `WithParams`. -/
def WithParams (params : List (String × String)) : AdapterOption :=
  fun a => { a with params := some params }

/-- `NewAdapter`: start from the defaults, apply the options, open the
handle on `createPostgresURI(adapter)` (returned as the second component).
The Go source never assigns its `database` parameter to the adapter, so
the URI path is derived from the still-empty `database` field. -/
def NewAdapter (database : String) (options : List AdapterOption) : Adapter × String :=
  let adapter : Adapter := { host := defaultHost, port := defaultPort }
  let adapter := options.foldl (fun acc o => o acc) adapter
  let _unusedInSource := database
  ({ adapter with db := true }, createPostgresURI adapter)

/-!  ## Helper definitions and lemmas -/

/-- The `tx` row that `Save` inserts for a given transaction. -/
def txRowOf (tx : TX) : TxRow := ⟨tx.hash, tx.index, tx.height, tx.blockTime⟩

/-- The transaction rows among a buffer of statements, in order. -/
def opsTxRows (ops : List Op) : List TxRow :=
  ops.filterMap fun op =>
    match op with
    | .insertTx r => some r
    | .insertAttr _ => none

lemma opsTxRows_append (l1 l2 : List Op) :
    opsTxRows (l1 ++ l2) = opsTxRows l1 ++ opsTxRows l2 := by
  simp [opsTxRows]

lemma maxVersion_spec : ∀ (l : List Nat) (v : Nat), maxVersion l = some v →
    v ∈ l ∧ ∀ w ∈ l, w ≤ v := by
  intro l
  induction l with
  | nil => intro v h; simp [maxVersion] at h
  | cons x xs ih =>
    intro v h
    unfold maxVersion at h
    cases hm : maxVersion xs with
    | none =>
      rw [hm] at h
      cases h
      have hempty : xs = [] := by
        cases xs with
        | nil => rfl
        | cons y ys =>
          exfalso
          unfold maxVersion at hm
          rcases h2 : maxVersion ys with _ | m <;> rw [h2] at hm <;> simp at hm
      subst hempty
      simp
    | some m =>
      rw [hm] at h
      cases h
      rcases ih m hm with ⟨hmem, hle⟩
      constructor
      · rcases Nat.le_total x m with hxm | hmx
        · simp [Nat.max_eq_right hxm, hmem]
        · simp [Nat.max_eq_left hmx]
      · intro w hw
        rcases List.mem_cons.mp hw with hwx | hwxs
        · subst hwx; exact Nat.le_max_left _ _
        · exact Nat.le_trans (hle w hwxs) (Nat.le_max_right _ _)

lemma saveAttrs_ok_txRows (o : SaveOracle) (h t : String) (i : Nat) :
    ∀ (attrs : List Attribute) (pending out : List Op),
      saveAttrs o h t i attrs pending = .ok out → opsTxRows out = opsTxRows pending := by
  intro attrs
  induction attrs with
  | nil =>
    intro pending out hout
    simp only [saveAttrs, Except.ok.injEq] at hout
    rw [hout]
  | cons a rest ih =>
    intro pending out hout
    simp only [saveAttrs] at hout
    rcases hm : jsonMarshal a.value with e | v <;> rw [hm] at hout <;> simp at hout
    rcases hins : o.insertAttrErr ⟨h, t, i, a.key, v⟩ with _ | e <;>
      rw [hins] at hout <;> simp at hout
    rw [ih _ _ hout, opsTxRows_append]
    simp [opsTxRows]

lemma saveEvents_ok_txRows (o : SaveOracle) (h : String) :
    ∀ (events : List Event) (i : Nat) (pending out : List Op),
      saveEvents o h events i pending = .ok out → opsTxRows out = opsTxRows pending := by
  intro events
  induction events with
  | nil =>
    intro i pending out hout
    simp only [saveEvents, Except.ok.injEq] at hout
    rw [hout]
  | cons evt rest ih =>
    intro i pending out hout
    simp only [saveEvents] at hout
    rcases ha : saveAttrs o h evt.type i evt.attributes pending with e | pending2 <;>
      rw [ha] at hout <;> simp at hout
    rw [ih _ _ _ hout, saveAttrs_ok_txRows o h evt.type i evt.attributes pending pending2 ha]

lemma saveTxs_ok_txRows (o : SaveOracle) :
    ∀ (txs : List TX) (pending out : List Op),
      saveTxs o txs pending = .ok out →
        opsTxRows out = opsTxRows pending ++ txs.map txRowOf := by
  intro txs
  induction txs with
  | nil =>
    intro pending out hout
    simp only [saveTxs, Except.ok.injEq] at hout
    rw [hout]
    simp
  | cons tx rest ih =>
    intro pending out hout
    simp only [saveTxs] at hout
    rcases hins : o.insertTxErr ⟨tx.hash, tx.index, tx.height, tx.blockTime⟩ with _ | e <;>
      rw [hins] at hout <;> simp at hout
    rcases hev : tx.unmarshalledEvents with e | events <;> rw [hev] at hout <;> simp at hout
    rcases hse : saveEvents o tx.hash events 0
        (pending ++ [Op.insertTx ⟨tx.hash, tx.index, tx.height, tx.blockTime⟩]) with e | p2 <;>
      rw [hse] at hout <;> simp at hout
    rw [ih _ _ hout, saveEvents_ok_txRows o tx.hash events 0 _ p2 hse, opsTxRows_append]
    simp [opsTxRows, txRowOf]

lemma Save_fail_state (a : Adapter) (o : SaveOracle) (st : DBState) (txs : List TX) (e : Error) :
    (Save a o st txs).err = some e → (Save a o st txs).state = st := by
  unfold Save
  cases hdb : getDB a with
  | error e2 => simp
  | ok u =>
    cases hb : o.beginTxErr with
    | some e1 => simp
    | none =>
      cases hpt : o.prepareTxErr with
      | some e1 => simp
      | none =>
        cases hpa : o.prepareAttrErr with
        | some e1 => simp
        | none =>
          cases hsv : saveTxs o txs [] with
          | error e1 => simp
          | ok ops =>
            cases hc : o.commitErr with
            | some e1 => simp
            | none => simp

lemma Save_ok_state (a : Adapter) (o : SaveOracle) (st : DBState) (txs : List TX) :
    (Save a o st txs).err = none →
      ∃ ops, saveTxs o txs [] = .ok ops ∧
        Save a o st txs = ⟨applyOps st ops, none, true, true⟩ := by
  unfold Save
  cases hdb : getDB a with
  | error e2 => simp [ErrClosed]
  | ok u =>
    cases hb : o.beginTxErr with
    | some e1 => simp
    | none =>
      cases hpt : o.prepareTxErr with
      | some e1 => simp
      | none =>
        cases hpa : o.prepareAttrErr with
        | some e1 => simp
        | none =>
          cases hsv : saveTxs o txs [] with
          | error e1 => simp
          | ok ops =>
            cases hc : o.commitErr with
            | some e1 => simp
            | none => exact fun _ => ⟨ops, rfl, rfl⟩

/-- The attribute-insert statements that `Save` issues for a list of
events whose first event sits at position `i`: for each event in order,
one insert per attribute, carrying the transaction hash, the event type,
the event's position and the JSON-encoded attribute value. -/
def expectedAttrOpsFrom (hash : String) (encOf : Json → String) :
    List Event → Nat → List Op
  | [], _ => []
  | evt :: rest, i =>
    (evt.attributes.map fun attr =>
      Op.insertAttr ⟨hash, evt.type, i, attr.key, encOf attr.value⟩) ++
      expectedAttrOpsFrom hash encOf rest (i + 1)

/-- Same, starting at position 0, matching the `for i, evt := range events`
loop of `Save`. -/
def expectedAttrOps (hash : String) (encOf : Json → String) (events : List Event) : List Op :=
  expectedAttrOpsFrom hash encOf events 0

/-- The full statement sequence `Save` issues for one transaction: its
`tx` row first, then all its attribute rows. -/
def expectedOps (encOf : Json → String) (evsOf : TX → List Event) (tx : TX) : List Op :=
  Op.insertTx (txRowOf tx) :: expectedAttrOps tx.hash encOf (evsOf tx)

lemma expectedAttrOpsFrom_enumFrom (hash : String) (encOf : Json → String) :
    ∀ (events : List Event) (i : Nat),
      expectedAttrOpsFrom hash encOf events i =
        (List.enumFrom i events).flatMap fun p =>
          p.2.attributes.map fun attr =>
            Op.insertAttr ⟨hash, p.2.type, p.1, attr.key, encOf attr.value⟩ := by
  intro events
  induction events with
  | nil => intro i; simp [expectedAttrOpsFrom]
  | cons evt rest ih =>
    intro i
    simp [expectedAttrOpsFrom, List.enumFrom_cons, ih]

lemma saveAttrs_all_ok (o : SaveOracle) (h t : String) (i : Nat) (encOf : Json → String)
    (hins : ∀ r, o.insertAttrErr r = none) :
    ∀ (attrs : List Attribute) (pending : List Op),
      (∀ attr ∈ attrs, jsonMarshal attr.value = .ok (encOf attr.value)) →
      saveAttrs o h t i attrs pending =
        .ok (pending ++ attrs.map fun attr =>
          Op.insertAttr ⟨h, t, i, attr.key, encOf attr.value⟩) := by
  intro attrs
  induction attrs with
  | nil => intro pending _; simp [saveAttrs]
  | cons a rest ih =>
    intro pending henc
    simp only [saveAttrs]
    rw [henc a (by simp)]
    simp [hins]
    rw [ih _ (fun attr h2 => henc attr (by simp [h2]))]
    simp

lemma saveEvents_all_ok (o : SaveOracle) (h : String) (encOf : Json → String)
    (hins : ∀ r, o.insertAttrErr r = none) :
    ∀ (events : List Event) (i : Nat) (pending : List Op),
      (∀ evt ∈ events, ∀ attr ∈ evt.attributes,
        jsonMarshal attr.value = .ok (encOf attr.value)) →
      saveEvents o h events i pending =
        .ok (pending ++ expectedAttrOpsFrom h encOf events i) := by
  intro events
  induction events with
  | nil => intro i pending _; simp [saveEvents, expectedAttrOpsFrom]
  | cons evt rest ih =>
    intro i pending henc
    simp only [saveEvents]
    rw [saveAttrs_all_ok o h evt.type i encOf hins evt.attributes pending (henc evt (by simp))]
    simp only []
    rw [ih (i + 1) _ (fun e he a ha => henc e (by simp [he]) a ha)]
    simp [expectedAttrOpsFrom]

lemma saveTxs_all_ok (o : SaveOracle) (encOf : Json → String) (evsOf : TX → List Event)
    (htx : ∀ r, o.insertTxErr r = none) (hattr : ∀ r, o.insertAttrErr r = none) :
    ∀ (txs : List TX) (pending : List Op),
      (∀ tx ∈ txs, tx.unmarshalledEvents = .ok (evsOf tx)) →
      (∀ tx ∈ txs, ∀ evt ∈ evsOf tx, ∀ attr ∈ evt.attributes,
        jsonMarshal attr.value = .ok (encOf attr.value)) →
      saveTxs o txs pending = .ok (pending ++ txs.flatMap (expectedOps encOf evsOf)) := by
  intro txs
  induction txs with
  | nil => intro pending _ _; simp [saveTxs]
  | cons tx rest ih =>
    intro pending hevs henc
    simp only [saveTxs, htx]
    rw [hevs tx (by simp)]
    simp only []
    rw [saveEvents_all_ok o tx.hash encOf hattr (evsOf tx) 0 _ (henc tx (by simp))]
    simp only []
    rw [ih _ (fun u hu => hevs u (by simp [hu])) (fun u hu => henc u (by simp [hu]))]
    simp [expectedOps, expectedAttrOps, txRowOf]

/-!  ## Decomposition of the connection locator -/

/-- The userinfo component of the locator, exactly as `createPostgresURI`
and `Userinfo.String()` build it: absent for an empty user, without a
password component for an empty password, with both otherwise. -/
def userinfoPart (a : Adapter) : String :=
  if a.user ≠ "" then
    (if a.password ≠ "" then
      escape a.user .userPassword ++ ":" ++ escape a.password .userPassword
     else escape a.user .userPassword) ++ "@"
  else ""

/-- The host component of the locator. -/
def hostPart (a : Adapter) : String :=
  escape (a.host ++ ":" ++ toString a.port) .host

/-- The path component of the locator (a leading slash is added when the
escaped path does not start with one). -/
def pathPart (a : Adapter) : String :=
  (if escape a.database .path ≠ "" ∧ (escape a.database .path).take 1 ≠ "/" then "/" else "") ++
    escape a.database .path

/-- The query component of the locator: a `?` followed by the encoded
params when they are present and encode to a non-empty string. -/
def queryPart (a : Adapter) : String :=
  match a.params with
  | some ps =>
    if valuesEncode (buildValues ps) ≠ "" then "?" ++ valuesEncode (buildValues ps) else ""
  | none => ""

lemma concat_colon_ne_empty (s t : String) : s ++ ":" ++ t ≠ "" := by
  intro h
  have hlen := congrArg String.length h
  rw [String.length_append, String.length_append] at hlen
  have h1 : String.length ":" = 1 := rfl
  have h2 : String.length "" = 0 := rfl
  omega

lemma str_append_eq_empty_iff (s t : String) : s ++ t = "" ↔ s = "" ∧ t = "" := by
  constructor
  · intro h
    have hd := congrArg String.data h
    rw [String.data_append] at hd
    rcases List.append_eq_nil.mp hd with ⟨h1, h2⟩
    exact ⟨String.ext h1, String.ext h2⟩
  · rintro ⟨h1, h2⟩
    subst h1; subst h2; rfl

lemma createPostgresURI_decomp (a : Adapter) :
    createPostgresURI a =
      "postgres://" ++ userinfoPart a ++ hostPart a ++ pathPart a ++ queryPart a := by
  have hh : ¬(a.host ++ ":" ++ toString a.port = "") := concat_colon_ne_empty a.host _
  by_cases hu : a.user = "" <;> by_cases hp : a.password = "" <;>
    rcases hps : a.params with _ | ps <;>
    (apply String.ext
     simp [createPostgresURI, URL.toStr, userinfoPart, hostPart, pathPart, queryPart,
       Userinfo.toStr, urlUser, urlUserPassword, adapterType, hu, hp, hps, hh,
       str_append_eq_empty_iff, String.data_append])

lemma valuesSet_fresh (k v : String) :
    ∀ acc : List (String × String), k ∉ acc.map Prod.fst → valuesSet k v acc = acc ++ [(k, v)] := by
  intro acc
  induction acc with
  | nil => intro _; rfl
  | cons q rest ih =>
    obtain ⟨k2, v2⟩ := q
    intro hk
    simp only [List.map_cons, List.mem_cons, not_or] at hk
    have hne : ¬(k2 = k) := Ne.symm hk.1
    simp [valuesSet, hne, ih hk.2]

lemma foldl_valuesSet_fresh :
    ∀ (ps acc : List (String × String)),
      (ps.map Prod.fst).Nodup →
      (∀ k ∈ ps.map Prod.fst, k ∉ acc.map Prod.fst) →
      ps.foldl (fun q kv => valuesSet kv.1 kv.2 q) acc = acc ++ ps := by
  intro ps
  induction ps with
  | nil => intro acc _ _; simp
  | cons kv rest ih =>
    intro acc hnd hdisj
    simp only [List.map_cons, List.nodup_cons] at hnd
    have h1 : valuesSet kv.1 kv.2 acc = acc ++ [(kv.1, kv.2)] :=
      valuesSet_fresh kv.1 kv.2 acc (hdisj kv.1 (by simp))
    have hdisj2 : ∀ k ∈ rest.map Prod.fst, k ∉ (acc ++ [(kv.1, kv.2)]).map Prod.fst := by
      intro k hk
      simp only [List.map_append, List.mem_append, List.map_cons, List.map_nil,
        List.mem_singleton, not_or]
      refine ⟨hdisj k (by simp [hk]), ?_⟩
      intro hc
      exact hnd.1 (hc ▸ hk)
    simp only [List.foldl_cons]
    rw [h1, ih _ hnd.2 hdisj2]
    simp

lemma buildValues_of_nodup (ps : List (String × String)) (h : (ps.map Prod.fst).Nodup) :
    buildValues ps = ps := by
  have := foldl_valuesSet_fresh ps [] h (by simp)
  simpa [buildValues] using this

lemma mem_insertPairSorted (p q : String × String) :
    ∀ l, p = q ∨ p ∈ l → p ∈ insertPairSorted q l := by
  intro l
  induction l with
  | nil =>
    intro h
    rcases h with h | h
    · simp [insertPairSorted, h]
    · simp at h
  | cons r rest ih =>
    intro h
    simp only [insertPairSorted]
    split
    · rcases h with h | h <;> simp [h]
    · rcases h with h | h
      · exact List.mem_cons_of_mem r (ih (Or.inl h))
      · rcases List.mem_cons.mp h with h2 | h2
        · simp [h2]
        · exact List.mem_cons_of_mem r (ih (Or.inr h2))

lemma mem_sortByKey (p : String × String) : ∀ l, p ∈ l → p ∈ sortByKey l := by
  intro l
  induction l with
  | nil => intro h; simp at h
  | cons q rest ih =>
    intro h
    simp only [sortByKey]
    rcases List.mem_cons.mp h with h2 | h2
    · exact mem_insertPairSorted p q _ (Or.inl h2)
    · exact mem_insertPairSorted p q _ (Or.inr (ih h2))

/-- Whether the first character list starts the second one. -/
def startsWithChars : List Char → List Char → Bool
  | [], _ => true
  | _ :: _, [] => false
  | a :: as, b :: bs => a == b && startsWithChars as bs

/-- Whether the first character list occurs inside the second one. -/
def containsChars (sub : List Char) : List Char → Bool
  | [] => startsWithChars sub []
  | c :: rest => startsWithChars sub (c :: rest) || containsChars sub rest

/-- Whether `sub` occurs as a contiguous substring of `s`. -/
def strContains (s sub : String) : Bool := containsChars sub.data s.data

lemma startsWithChars_self (sub y : List Char) : startsWithChars sub (sub ++ y) = true := by
  induction sub with
  | nil => rfl
  | cons c cs ih => simp [startsWithChars, ih]

lemma containsChars_append_of (sub rest : List Char) (h : containsChars sub rest = true) :
    ∀ x : List Char, containsChars sub (x ++ rest) = true := by
  intro x
  induction x with
  | nil => simpa using h
  | cons c cs ih => simp [containsChars, ih]

lemma containsChars_here (sub y : List Char) : containsChars sub (sub ++ y) = true := by
  cases hs : sub ++ y with
  | nil =>
    have h1 : sub = [] := (List.append_eq_nil.mp hs).1
    rw [h1]
    rfl
  | cons c rest =>
    have h2 : startsWithChars sub (c :: rest) = true := by
      rw [← hs]
      exact startsWithChars_self sub y
    simp [containsChars, h2]

lemma strContains_of_parts (s sub : String) (x y : List Char)
    (h : s.data = x ++ (sub.data ++ y)) : strContains s sub = true := by
  unfold strContains
  rw [h]
  exact containsChars_append_of sub.data _ (containsChars_here sub.data y) x

lemma joinAmp_mem_parts :
    ∀ (segs : List String) (s : String), s ∈ segs →
      ∃ x y : List Char, (joinAmp segs).data = x ++ (s.data ++ y) := by
  intro segs
  induction segs with
  | nil => intro s hs; simp at hs
  | cons t rest ih =>
    intro s hs
    rcases List.mem_cons.mp hs with h | h
    · subst h
      cases rest with
      | nil => exact ⟨[], [], by simp [joinAmp]⟩
      | cons t2 r2 =>
        refine ⟨[], '&' :: (joinAmp (t2 :: r2)).data, ?_⟩
        simp [joinAmp, String.data_append]
    · cases rest with
      | nil => simp at h
      | cons t2 r2 =>
        rcases ih s h with ⟨x, y, hxy⟩
        refine ⟨t.data ++ '&' :: x, y, ?_⟩
        simp [joinAmp, String.data_append, hxy]

lemma encodePair_ne_empty (p : String × String) : encodePair p ≠ "" := by
  intro h
  have hd := congrArg String.data h
  simp [encodePair, String.data_append] at hd

/-!  ## Claim theorems -/

/-- Concrete fixtures used by the witness theorems. -/
def testAdapter : Adapter := { db := true }

def closedAdapter : Adapter := {}

def emptyState : DBState := ⟨false, [], [], []⟩

def stateV (v : Nat) : DBState := ⟨true, [v], [], []⟩

def noFailOracle : SaveOracle := ⟨none, none, none, fun _ => none, fun _ => none, none⟩

def testEnv : SchemaEnv := ⟨fun p => .ok p, fun _ => none⟩

/-- A transaction used by the witness theorems: one event with one
attribute. -/
def testTx : TX :=
  ⟨"ABC", 0, 10, "t0", .ok [⟨"transfer", [⟨"amount", Json.num 42⟩]⟩]⟩

/-- Oracle whose transaction-row insert fails with a duplicate-key store
error. -/
def dupTxOracle : SaveOracle :=
  { noFailOracle with insertTxErr := fun _ => some "duplicate key value" }

/-- Oracle whose attribute-row insert fails with a duplicate-key store
error. -/
def dupAttrOracle : SaveOracle :=
  { noFailOracle with insertAttrErr := fun _ => some "duplicate key value" }

/-- C1: the write is all-or-nothing.  If `Save` returns an error — from a
failed insert, a failed event decode, a failed JSON encoding, or any other
step — the database contents are exactly what they were before the call
(the open transaction is rolled back).  If `Save` returns no error, the
commit publishes precisely the statement buffer produced by inserting
every transaction row (one per batch entry, in order) and every attribute
row. -/
theorem c1_save_atomicity (a : Adapter) (o : SaveOracle) (st : DBState) (txs : List TX) :
    (∀ e, (Save a o st txs).err = some e → (Save a o st txs).state = st) ∧
    ((Save a o st txs).err = none →
      ∃ ops, saveTxs o txs [] = .ok ops ∧
        (Save a o st txs).state = applyOps st ops ∧
        opsTxRows ops = txs.map txRowOf) := by
  constructor
  · exact fun e he => Save_fail_state a o st txs e he
  · intro hnone
    rcases Save_ok_state a o st txs hnone with ⟨ops, hsv, heq⟩
    refine ⟨ops, hsv, by rw [heq], ?_⟩
    have h := saveTxs_ok_txRows o txs [] ops hsv
    simpa [opsTxRows] using h

theorem c1_save_atomicity_witness :
    (Save testAdapter dupTxOracle emptyState [testTx]).err =
      some "error saving transaction ABC: duplicate key value" ∧
    (Save testAdapter dupTxOracle emptyState [testTx]).state = emptyState :=
  ⟨rfl, (c1_save_atomicity testAdapter dupTxOracle emptyState [testTx]).1 _ rfl⟩

lemma applyVersions_all_ok (a : Adapter) (env : SchemaEnv) :
    ∀ (n start : Nat),
      (∀ v, start ≤ v → v < start + n → applySchema a env (verKey v) = none) →
      applyVersions a env start n = ((List.range' start n).map verKey, none) := by
  intro n
  induction n with
  | zero => intro start _; simp [applyVersions]
  | succ n ih =>
    intro start hok
    simp only [applyVersions]
    rw [hok start (Nat.le_refl _) (by omega)]
    rw [ih (start + 1) (fun v hv1 hv2 => hok v (by omega) (by omega))]
    simp [List.range'_succ]

lemma applyVersions_first_fail (a : Adapter) (env : SchemaEnv) :
    ∀ (n start k : Nat) (e : Error),
      start ≤ k → k < start + n →
      applySchema a env (verKey k) = some e →
      (∀ v, start ≤ v → v < k → applySchema a env (verKey v) = none) →
      applyVersions a env start n =
        ((List.range' start (k - start)).map verKey,
         some ("error applying schema " ++ verKey k ++ ": " ++ e)) := by
  intro n
  induction n with
  | zero => intro start k e h1 h2 _ _; omega
  | succ n ih =>
    intro start k e h1 h2 hk hok
    simp only [applyVersions]
    by_cases hsk : start = k
    · subst hsk
      rw [hk]
      simp [Nat.sub_self]
    · have hlt : start < k := Nat.lt_of_le_of_ne h1 hsk
      rw [hok start (Nat.le_refl _) hlt]
      rw [ih (start + 1) k e (by omega) (by omega) hk (fun v hv1 hv2 => hok v (by omega) hv2)]
      have hks : k - start = (k - (start + 1)) + 1 := by omega
      rw [hks, List.range'_succ]
      simp

/-- C2: when the current version is strictly below the target, the
migration loop applies exactly the versions in `(current, target]`, in
ascending numeric order, each addressed by the key `"<version>.sql"`.  If
every script succeeds, all of them are applied; if the script for some
version `k` in the range is the first to be missing or to fail, the loop
stops there with a wrapped error naming `k`'s key, and the scripts already
applied in that call (versions `current+1 .. k-1`) stay applied.
`SetupSchema` is this loop at the compiled-in target `schemaVersion`. -/
theorem c2_migrations_in_order (a : Adapter) (env : SchemaEnv) (st : DBState)
    (current target : Nat)
    (hcur : getSchemaVersion a st = .ok current) (hlt : current < target) :
    (SetupSchema a env st = setupSchemaTo a env st schemaVersion) ∧
    ((∀ v, current < v → v ≤ target → applySchema a env (verKey v) = none) →
      setupSchemaTo a env st target =
        ((List.range' (current + 1) (target - current)).map verKey, none)) ∧
    (∀ k e, current < k → k ≤ target →
      applySchema a env (verKey k) = some e →
      (∀ v, current < v → v < k → applySchema a env (verKey v) = none) →
      setupSchemaTo a env st target =
        ((List.range' (current + 1) (k - (current + 1))).map verKey,
         some ("error applying schema " ++ verKey k ++ ": " ++ e))) := by
  have hne : ¬(current = target) := by omega
  have hngt : ¬(current > target) := by omega
  refine ⟨rfl, ?_, ?_⟩
  · intro hok
    rw [show setupSchemaTo a env st target = applyVersions a env (current + 1) (target - current) by
      simp [setupSchemaTo, hcur, hne, hngt]]
    exact applyVersions_all_ok a env (target - current) (current + 1)
      (fun v hv1 hv2 => hok v (by omega) (by omega))
  · intro k e hk1 hk2 hke hok
    rw [show setupSchemaTo a env st target = applyVersions a env (current + 1) (target - current) by
      simp [setupSchemaTo, hcur, hne, hngt]]
    exact applyVersions_first_fail a env (target - current) (current + 1) k e
      (by omega) (by omega) hke (fun v hv1 hv2 => hok v (by omega) hv2)

/-- Environment whose script execution fails on version 3's script. -/
def failEnv : SchemaEnv :=
  ⟨fun p => .ok p, fun s => if s = "schemas/3.sql" then some "missing" else none⟩

theorem c2_migrations_in_order_witness :
    setupSchemaTo testAdapter testEnv emptyState 4 =
      (["1.sql", "2.sql", "3.sql", "4.sql"], none) ∧
    setupSchemaTo testAdapter failEnv emptyState 4 =
      (["1.sql", "2.sql"], some "error applying schema 3.sql: missing") :=
  ⟨(c2_migrations_in_order testAdapter testEnv emptyState 0 4 rfl (by decide)).2.1
      (fun v _ _ => rfl),
   (c2_migrations_in_order testAdapter failEnv emptyState 0 4 rfl (by decide)).2.2 3 "missing"
      (by decide) (by decide) rfl
      (by intro v h1 h2; interval_cases v <;> rfl)⟩

/-- C3: whenever the currently installed schema version equals the
compiled-in target version `schemaVersion`, `SetupSchema` succeeds without
executing any migration script (the applied-scripts trace is empty), so a
repeated call in the same situation performs no schema writes. -/
theorem c3_setup_schema_idempotent (a : Adapter) (env : SchemaEnv) (st : DBState)
    (h : getSchemaVersion a st = .ok schemaVersion) :
    SetupSchema a env st = ([], none) := by
  simp [SetupSchema, setupSchemaTo, h]

theorem c3_setup_schema_idempotent_witness :
    SetupSchema testAdapter testEnv (stateV 1) = ([], none) :=
  c3_setup_schema_idempotent testAdapter testEnv (stateV 1) rfl

/-- C4: whenever the installed schema version is strictly greater than the
compiled-in target `schemaVersion`, `SetupSchema` fails with the
"latest schema version is vT, found vC" error and executes no migration
script (the applied-scripts trace is empty, so the database is not
written and the installed version is unchanged). -/
theorem c4_downgrade_rejected (a : Adapter) (env : SchemaEnv) (st : DBState) (current : Nat)
    (hcur : getSchemaVersion a st = .ok current) (hgt : schemaVersion < current) :
    SetupSchema a env st =
      ([], some ("latest schema version is v" ++ toString schemaVersion ++
        ", found v" ++ toString current)) := by
  have hne : ¬(current = schemaVersion) := by omega
  simp [SetupSchema, setupSchemaTo, hcur, hne, hgt]

theorem c4_downgrade_rejected_witness :
    SetupSchema testAdapter testEnv (stateV 5) =
      ([], some "latest schema version is v1, found v5") :=
  c4_downgrade_rejected testAdapter testEnv (stateV 5) 5 rfl (by decide)

/-- C5: the current-version read returns 0 when the version-tracking table
does not exist; when it exists it returns the maximum recorded version
(a recorded version at least as large as every recorded version); and when
the adapter holds no database handle it fails with the `ErrClosed`
connectivity error. -/
theorem c5_current_version_read (a : Adapter) (st : DBState) :
    (a.db = false → getSchemaVersion a st = .error ErrClosed) ∧
    (a.db = true → st.schemaTableExists = false → getSchemaVersion a st = .ok 0) ∧
    (a.db = true → st.schemaTableExists = true →
      ∀ v, maxVersion st.schemaRows = some v →
        getSchemaVersion a st = .ok v ∧ v ∈ st.schemaRows ∧ ∀ w ∈ st.schemaRows, w ≤ v) := by
  refine ⟨?_, ?_, ?_⟩
  · intro hdb
    simp [getSchemaVersion, getDB, hdb]
  · intro hdb hex
    simp [getSchemaVersion, getDB, hdb, hex]
  · intro hdb hex v hv
    refine ⟨?_, maxVersion_spec st.schemaRows v hv⟩
    simp [getSchemaVersion, getDB, hdb, hex, hv]

theorem c5_current_version_read_witness :
    getSchemaVersion closedAdapter emptyState = .error ErrClosed ∧
    getSchemaVersion testAdapter emptyState = .ok 0 ∧
    getSchemaVersion testAdapter (stateV 3) = .ok 3 :=
  ⟨(c5_current_version_read closedAdapter emptyState).1 rfl,
   (c5_current_version_read testAdapter emptyState).2.1 rfl rfl,
   ((c5_current_version_read testAdapter (stateV 3)).2.2 rfl rfl 3 rfl).1⟩

/-- Event list of a transaction as decoded by the collaborator, used to
instantiate witness theorems. -/
def witEvs : TX → List Event :=
  fun tx =>
    match tx.unmarshalledEvents with
    | .ok evs => evs
    | .error _ => []

/-- JSON encoding of a value on which `jsonMarshal` succeeds, used to
instantiate witness theorems. -/
def witEnc : Json → String :=
  fun v =>
    match jsonMarshal v with
    | .ok s => s
    | .error _ => ""

/-- C6: when the external store and collaborators accept every step,
`Save` processes the batch in input order; for each transaction it first
inserts the transaction row, then for each decoded event, in position
order, one attribute row per attribute, whose stored value is the JSON
encoding of the original attribute value and which references the
transaction's hash and the event's position index.  The second conjunct
makes the position indices explicit via `List.enum`. -/
theorem c6_save_order_and_encoding (a : Adapter) (o : SaveOracle) (st : DBState)
    (txs : List TX) (encOf : Json → String) (evsOf : TX → List Event)
    (hdb : a.db = true) (hb : o.beginTxErr = none) (hpt : o.prepareTxErr = none)
    (hpa : o.prepareAttrErr = none) (hc : o.commitErr = none)
    (htx : ∀ r, o.insertTxErr r = none) (hattr : ∀ r, o.insertAttrErr r = none)
    (hevs : ∀ tx ∈ txs, tx.unmarshalledEvents = .ok (evsOf tx))
    (henc : ∀ tx ∈ txs, ∀ evt ∈ evsOf tx, ∀ attr ∈ evt.attributes,
      jsonMarshal attr.value = .ok (encOf attr.value)) :
    Save a o st txs =
      ⟨applyOps st (txs.flatMap (expectedOps encOf evsOf)), none, true, true⟩ ∧
    (∀ hash events,
      expectedAttrOps hash encOf events =
        events.enum.flatMap fun p =>
          p.2.attributes.map fun attr =>
            Op.insertAttr ⟨hash, p.2.type, p.1, attr.key, encOf attr.value⟩) := by
  constructor
  · have hsv := saveTxs_all_ok o encOf evsOf htx hattr txs [] hevs henc
    simp only [List.nil_append] at hsv
    simp [Save, getDB, hdb, hb, hpt, hpa, hc, hsv]
  · intro hash events
    simp [expectedAttrOps, expectedAttrOpsFrom_enumFrom, List.enum]

theorem c6_save_order_and_encoding_witness :
    Save testAdapter noFailOracle emptyState [testTx] =
      ⟨⟨false, [], [⟨"ABC", 0, 10, "t0"⟩], [⟨"ABC", "transfer", 0, "amount", "42"⟩]⟩,
       none, true, true⟩ :=
  (c6_save_order_and_encoding testAdapter noFailOracle emptyState [testTx] witEnc witEvs
    rfl rfl rfl rfl rfl (fun _ => rfl) (fun _ => rfl)
    (by intro tx htx; rw [List.mem_singleton] at htx; subst htx; rfl)
    (by
      intro tx htx evt hevt attr hattr
      rw [List.mem_singleton] at htx
      subst htx
      simp only [witEvs, testTx] at hevt
      rw [List.mem_singleton] at hevt
      subst hevt
      rw [List.mem_singleton] at hattr
      subst hattr
      rfl)).1

/-- C7: with an open database handle (and the external store accepting the
begin/prepare/commit calls), `Save` on an empty batch begins and commits a
database transaction, performs no inserts, leaves the database contents
unchanged and returns no error. -/
theorem c7_empty_batch (a : Adapter) (o : SaveOracle) (st : DBState)
    (hdb : a.db = true) (hb : o.beginTxErr = none) (hpt : o.prepareTxErr = none)
    (hpa : o.prepareAttrErr = none) (hc : o.commitErr = none) :
    Save a o st [] = ⟨st, none, true, true⟩ := by
  simp [Save, getDB, hdb, hb, hpt, hpa, hc, saveTxs, applyOps]

theorem c7_empty_batch_witness :
    Save testAdapter noFailOracle emptyState [] = ⟨emptyState, none, true, true⟩ :=
  c7_empty_batch testAdapter noFailOracle emptyState rfl rfl rfl rfl rfl

/-- C8 counterexample: the claim that an attribute-row insert failure
identifies the failing transaction hash or attribute name is false.  For a
batch holding the single transaction `testTx` (hash `"ABC"`, one attribute
named `"amount"`) and a store that rejects the attribute insert with
`"duplicate key value"`, `Save` returns the error
`"error saving event attribute: duplicate key value"`, which contains
neither the transaction's hash nor the attribute's name. -/
theorem c8_counterexample :
    (Save testAdapter dupAttrOracle emptyState [testTx]).err =
      some "error saving event attribute: duplicate key value" ∧
    testTx.hash = "ABC" ∧
    strContains "error saving event attribute: duplicate key value" "ABC" = false ∧
    strContains "error saving event attribute: duplicate key value" "amount" = false := by
  refine ⟨rfl, rfl, ?_, ?_⟩ <;> decide

/-- C8 (amended): a transaction-row insert failure wraps the store error
together with the failing transaction's hash, and an attribute-value
encoding failure wraps the error together with the failing attribute's
name; an attribute-row insert failure, however, wraps only the underlying
store error under the generic message "error saving event attribute",
identifying neither the transaction hash nor the attribute name. -/
theorem c8_amended_error_identification (a : Adapter) (o : SaveOracle) (st : DBState)
    (tx : TX) (hdb : a.db = true) (hb : o.beginTxErr = none)
    (hpt : o.prepareTxErr = none) (hpa : o.prepareAttrErr = none) :
    (∀ e, o.insertTxErr (txRowOf tx) = some e →
      (Save a o st [tx]).err =
        some ("error saving transaction " ++ tx.hash ++ ": " ++ e)) ∧
    (∀ evType key msg, o.insertTxErr (txRowOf tx) = none →
      tx.unmarshalledEvents = .ok [⟨evType, [⟨key, Json.unsupported msg⟩]⟩] →
      (Save a o st [tx]).err =
        some ("failed to encode event attribute '" ++ key ++ "': " ++
          ("json: unsupported type: " ++ msg))) ∧
    (∀ evType key v enc e, o.insertTxErr (txRowOf tx) = none →
      tx.unmarshalledEvents = .ok [⟨evType, [⟨key, v⟩]⟩] →
      jsonMarshal v = .ok enc →
      o.insertAttrErr ⟨tx.hash, evType, 0, key, enc⟩ = some e →
      (Save a o st [tx]).err = some ("error saving event attribute: " ++ e)) := by
  refine ⟨?_, ?_, ?_⟩
  · intro e he
    simp only [txRowOf] at he
    have hsv : saveTxs o [tx] [] =
        .error ("error saving transaction " ++ tx.hash ++ ": " ++ e) := by
      simp [saveTxs, he]
    simp [Save, getDB, hdb, hb, hpt, hpa, hsv]
  · intro evType key msg hins hev
    simp only [txRowOf] at hins
    have hsv : saveTxs o [tx] [] =
        .error ("failed to encode event attribute '" ++ key ++ "': " ++
          ("json: unsupported type: " ++ msg)) := by
      rw [saveTxs, hins, hev]
      simp [saveEvents, saveAttrs, jsonMarshal]
    simp [Save, getDB, hdb, hb, hpt, hpa, hsv]
  · intro evType key v enc e hins hev hm hae
    simp only [txRowOf] at hins
    have hsv : saveTxs o [tx] [] = .error ("error saving event attribute: " ++ e) := by
      rw [saveTxs, hins, hev]
      simp [saveEvents, saveAttrs, hm, hae]
    simp [Save, getDB, hdb, hb, hpt, hpa, hsv]

theorem c8_amended_error_identification_witness :
    (Save testAdapter dupTxOracle emptyState [testTx]).err =
      some ("error saving transaction " ++ "ABC" ++ ": " ++ "duplicate key value") ∧
    (Save testAdapter dupAttrOracle emptyState [testTx]).err =
      some ("error saving event attribute: " ++ "duplicate key value") :=
  ⟨(c8_amended_error_identification testAdapter dupTxOracle emptyState testTx
      rfl rfl rfl rfl).1 "duplicate key value" rfl,
   (c8_amended_error_identification testAdapter dupAttrOracle emptyState testTx
      rfl rfl rfl rfl).2.2 "transfer" "amount" (Json.num 42) "42" "duplicate key value"
      rfl rfl rfl rfl⟩

/-- C10: with an open database handle and an empty `tx` table,
`GetLatestHeight` returns height 0 together with a non-nil error (the
`MAX(height)` aggregate over zero rows yields SQL `NULL`, which cannot be
scanned into the `int64` result); it never silently fabricates a height
for an empty store. -/
theorem c10_latest_height_empty_store (a : Adapter) (st : DBState)
    (hdb : a.db = true) (hempty : st.txRows = []) :
    (GetLatestHeight a st).1 = 0 ∧ (GetLatestHeight a st).2 ≠ none := by
  simp [GetLatestHeight, getDB, hdb, hempty, maxHeight]

theorem c10_latest_height_empty_store_witness :
    (GetLatestHeight testAdapter emptyState).1 = 0 ∧
    (GetLatestHeight testAdapter emptyState).2 ≠ none :=
  c10_latest_height_empty_store testAdapter emptyState rfl rfl

/-- Adapter configuration used by the C9 witness. -/
def uriAdapter : Adapter :=
  { db := true, user := "bob", password := "p w", host := "localhost", port := 5432,
    database := "", params := some [("a b", "c&d"), ("sslmode", "disable")] }

/-- C9: the derived connection locator decomposes as scheme, userinfo,
host, path and query components, where the userinfo component is absent
when the user field is empty, holds the user but no password component
when the user is set and the password is empty, and holds both when both
are set; and every entry of the extra params mapping appears
percent-encoded (as `key=value`) inside the locator. -/
theorem c9_connection_locator (a : Adapter) :
    createPostgresURI a =
      "postgres://" ++ userinfoPart a ++ hostPart a ++ pathPart a ++ queryPart a ∧
    (a.user = "" → userinfoPart a = "") ∧
    (a.user ≠ "" → a.password = "" →
      userinfoPart a = escape a.user .userPassword ++ "@") ∧
    (a.user ≠ "" → a.password ≠ "" →
      userinfoPart a =
        escape a.user .userPassword ++ ":" ++ escape a.password .userPassword ++ "@") ∧
    (∀ ps, a.params = some ps → (ps.map Prod.fst).Nodup →
      ∀ p ∈ ps, strContains (createPostgresURI a) (encodePair p) = true) := by
  refine ⟨createPostgresURI_decomp a, ?_, ?_, ?_, ?_⟩
  · intro hu; simp [userinfoPart, hu]
  · intro hu hp; simp [userinfoPart, hu, hp]
  · intro hu hp; simp [userinfoPart, hu, hp]
  · intro ps hps hnd p hp
    have hmem : p ∈ sortByKey (buildValues ps) :=
      mem_sortByKey p _ (by rw [buildValues_of_nodup ps hnd]; exact hp)
    have hmem2 : encodePair p ∈ (sortByKey (buildValues ps)).map encodePair :=
      List.mem_map_of_mem encodePair hmem
    rcases joinAmp_mem_parts _ _ hmem2 with ⟨x, y, hxy⟩
    have hxy2 : (valuesEncode (buildValues ps)).data = x ++ ((encodePair p).data ++ y) := hxy
    have hne : valuesEncode (buildValues ps) ≠ "" := by
      intro hc
      have hdata : (valuesEncode (buildValues ps)).data = [] := by rw [hc]
      rw [hxy2] at hdata
      rcases List.append_eq_nil.mp hdata with ⟨_, h2⟩
      rcases List.append_eq_nil.mp h2 with ⟨h3, _⟩
      exact encodePair_ne_empty p (String.ext h3)
    have hq : queryPart a = "?" ++ valuesEncode (buildValues ps) := by
      simp [queryPart, hps, hne]
    apply strContains_of_parts _ _
      (("postgres://" ++ userinfoPart a ++ hostPart a ++ pathPart a).data ++ '?' :: x) y
    rw [createPostgresURI_decomp a, hq]
    simp [String.data_append, hxy2]

theorem c9_connection_locator_witness :
    createPostgresURI uriAdapter =
      "postgres://" ++ userinfoPart uriAdapter ++ hostPart uriAdapter ++
        pathPart uriAdapter ++ queryPart uriAdapter ∧
    userinfoPart { uriAdapter with user := "" } = "" ∧
    userinfoPart { uriAdapter with password := "" } = escape "bob" .userPassword ++ "@" ∧
    userinfoPart uriAdapter =
      escape "bob" .userPassword ++ ":" ++ escape "p w" .userPassword ++ "@" ∧
    strContains (createPostgresURI uriAdapter) (encodePair ("sslmode", "disable")) = true :=
  ⟨(c9_connection_locator uriAdapter).1,
   (c9_connection_locator { uriAdapter with user := "" }).2.1 rfl,
   (c9_connection_locator { uriAdapter with password := "" }).2.2.1 (by decide) rfl,
   (c9_connection_locator uriAdapter).2.2.2.1 (by decide) (by decide),
   (c9_connection_locator uriAdapter).2.2.2.2 [("a b", "c&d"), ("sslmode", "disable")] rfl
     (by decide) ("sslmode", "disable") (by decide)⟩

end Postgres
